import Mathlib

/-!
Verification of `make_comparison_matrices.py` (gene presence / co-presence
matrix pipeline).  The Python source is shallowly embedded below:

* file contents are lists of lines, each line a `List Char`;
* pandas `DataFrame`s are modelled as an index list, a columns list, and a
  value function keyed by the row/column labels;
* Python exceptions are modelled with `Except`;
* `re.search(r"Name=([^;]+)", s)` is modelled by a left-to-right scan that
  returns the capture group of the leftmost full match.
-/

namespace MakeComparisonMatrices

/-- Python's whitespace set for `str.strip()` (space, tab, newline, carriage
return, vertical tab, form feed). -/
def pySpace (c : Char) : Bool :=
  c = ' ' || c = '\t' || c = '\n' || c = '\r' || c = Char.ofNat 11 || c = Char.ofNat 12

/-- `line.strip()` on a list of characters. -/
def pyStrip (l : List Char) : List Char :=
  ((l.dropWhile pySpace).reverse.dropWhile pySpace).reverse

/-- `s.split("\t")`: split on every tab, keeping empty fields.  On the empty
string this yields `[[]]`, as in Python. -/
def splitTab : List Char → List (List Char)
  | [] => [[]]
  | '\t' :: rest => [] :: splitTab rest
  | c :: rest =>
    match splitTab rest with
    | f :: fs => (c :: f) :: fs
    | [] => [[c]]

/-- `line.startswith("#")`. -/
def startsHash : List Char → Bool
  | '#' :: _ => true
  | _ => false

/-- `os.path.basename`: the part of the path after the last `/`. -/
def basename (p : String) : String :=
  String.mk ((p.data.reverse.takeWhile (fun c => c ≠ '/')).reverse)

/-- `s.replace(".gff", "")`: remove every occurrence of `.gff`, scanning left
to right (Python removes all non-overlapping occurrences, not only a trailing
extension). -/
def removeGff : List Char → List Char
  | '.' :: 'g' :: 'f' :: 'f' :: rest => removeGff rest
  | c :: rest => c :: removeGff rest
  | [] => []

/-- Whether `.gff` occurs anywhere in the character list. -/
def hasGff : List Char → Bool
  | '.' :: 'g' :: 'f' :: 'f' :: _ => true
  | _ :: rest => hasGff rest
  | [] => false

/-- `file.endswith(".gff")`. -/
def endsWithGff (s : String) : Bool :=
  s.data.reverse.take 4 = ['f', 'f', 'g', '.']

/-- `os.path.basename(file_path).replace(".gff", "")` — the genome name the
parser derives from a file path (line 37 of the source). -/
def genomeName (file_path : String) : String :=
  String.mk (removeGff (basename file_path).data)

/-- `re.search(r"Name=([^;]+)", s)`, returning the capture group: the value
after the leftmost occurrence of `Name=` that is followed by at least one
character other than `;`, up to the next `;` or the end of the field.  A
`Name=` immediately followed by `;` (or at the end) does not match there and
the scan continues to the right, exactly as `re.search` does. -/
def searchName : List Char → Option (List Char)
  | 'N' :: 'a' :: 'm' :: 'e' :: '=' :: c :: rest =>
    if c = ';' then searchName ('a' :: 'm' :: 'e' :: '=' :: c :: rest)
    else some (c :: rest.takeWhile (fun x => x ≠ ';'))
  | _ :: rest => searchName rest
  | [] => none

/-- One iteration of the line loop of `parse_gff` (lines 41-50): update the
presence map `pres` according to one line of the file (the source's local
variables `columns` and `gene_name` are inlined). -/
def updateLine (target_genes : List String) (pres : String → Nat) (line : List Char) :
    String → Nat :=
  if startsHash line then pres
  else if 8 < (splitTab (pyStrip line)).length then
    match searchName ((splitTab (pyStrip line)).getD 8 []) with
    | some v =>
      if String.mk v ∈ target_genes then fun g => if g = String.mk v then 1 else pres g
      else pres
    | none => pres
  else pres

/-- `parse_gff`: genome name from the file path, and the gene presence map
(0/1) built by folding `updateLine` over the file's lines, starting from the
all-zero map (`{gene: 0 for gene in target_genes}`). -/
def parse_gff (file_path : String) (lines : List (List Char)) (target_genes : List String) :
    String × (String → Nat) :=
  (genomeName file_path, lines.foldl (updateLine target_genes) (fun _ => 0))

/-- A pandas `DataFrame` with string row and column labels: the row index, the
column index, and the cell value looked up by labels. -/
structure DataFrame where
  index : List String
  columns : List String
  val : String → String → Nat

/-- `pd.DataFrame(results)` followed by `set_index("Genome")` (lines 100-101):
one row per parse result, in order; duplicate genome names are kept as
duplicate index entries (pandas raises no error on `set_index`).  Cell lookup
by label uses the first matching row. -/
def buildPresenceTable (results : List (String × (String → Nat)))
    (target_genes : List String) : DataFrame where
  index := results.map Prod.fst
  columns := target_genes
  val := fun genome gene =>
    match results.lookup genome with
    | some p => p gene
    | none => 0

/-- Lines 95-101 of `process_gff_folder`: parse every file of the (ctime
ordered) file list and assemble the presence/absence table.  Each file is a
pair of its path and its contents. -/
def process_gff_folder (files : List (String × List (List Char)))
    (target_genes : List String) : DataFrame :=
  buildPresenceTable (files.map fun fp => parse_gff fp.1 fp.2 target_genes) target_genes

/-- Lines 111-112: the pairwise comparison matrix of one gene,
`df[gene].values[:, None] & df[gene].values[None, :]` with
`index = df.index, columns = df.index`.  `&` on 0/1 integers is the bitwise
AND `Nat.land`. -/
def coPresence (df : DataFrame) (gene : String) : DataFrame where
  index := df.index
  columns := df.index
  val := fun i j => Nat.land (df.val i gene) (df.val j gene)

/-- `reorder_matrix_by_tree` (lines 54-73), taking the tree's already
extracted and quote-stripped tip label order as input:
`valid_genomes = [g for g in tip_labels_ordered if g in df.index]` and
`df.loc[valid_genomes, valid_genomes]`.  The label-keyed `DataFrame` model is
exact for frames whose labels are unique (the spec-typed CoPresenceMatrix
case); for behaviour under duplicated labels, where `.loc` expands each
selector label to every matching row, see `reorder_matrix_by_tree_loc` on the
positional `PosFrame` model below. -/
def reorder_matrix_by_tree (df : DataFrame) (tip_labels_ordered : List String) :
    DataFrame :=
  let valid_genomes := tip_labels_ordered.filter (fun g => decide (g ∈ df.index))
  { index := valid_genomes, columns := valid_genomes, val := df.val }

/-- Ascending positions at which label `s` occurs in `l`: the row (or column)
positions pandas `.loc` collects for one selector label on a possibly
duplicated axis. -/
def posOf : List String → String → List Nat
  | [], _ => []
  | c :: rest, s => (if c = s then [0] else []) ++ (posOf rest s).map (fun i => i + 1)

/-- A pandas `DataFrame` modelled positionally: row labels, column labels and
the cells as a list of rows.  Unlike the label-keyed `DataFrame` above (exact
only for unique labels), this representation captures `.loc`'s
duplicate-label expansion: a selector label matching several axis labels
selects every matching position. -/
structure PosFrame where
  index : List String
  columns : List String
  rows : List (List Nat)
deriving DecidableEq

/-- `reorder_matrix_by_tree` (lines 54-73) on the positional frame model:
`valid_genomes = [g for g in tip_labels_ordered if g in df.index]`, then
`df.loc[valid_genomes, valid_genomes]` — each selector label expands to all
positions at which it occurs in the row index (for rows) and in the column
labels (for columns), in axis order, and the cells are gathered from those
positions. -/
def reorder_matrix_by_tree_loc (df : PosFrame) (tips : List String) : PosFrame :=
  let valid_genomes := tips.filter (fun g => decide (g ∈ df.index))
  { index := (valid_genomes.flatMap (posOf df.index)).map (fun i => df.index.getD i "")
    columns := (valid_genomes.flatMap (posOf df.columns)).map (fun j => df.columns.getD j "")
    rows := (valid_genomes.flatMap (posOf df.index)).map (fun i =>
      (valid_genomes.flatMap (posOf df.columns)).map (fun j =>
        (df.rows.getD i []).getD j 0)) }

/-- Failure of `Phylo.read` on an invalid tree file.  The tree file is parsed
anew inside `reorder_matrix_by_tree` for every gene, so every gene's ordering
step sees the same outcome; we pass that outcome (`Except.ok` with the tip
label list, or `Except.error`) into the orchestrator model. -/
inductive TreeError where
  | parseError
deriving DecidableEq

/-- Lines 65-73 with the fallible tree parse made explicit: on a parse error
the exception propagates, otherwise the matrix is reordered. -/
def reorder_step (tree : Except TreeError (List String)) (df : DataFrame) :
    Except TreeError DataFrame :=
  match tree with
  | Except.ok tips => Except.ok (reorder_matrix_by_tree df tips)
  | Except.error e => Except.error e

/-- Output file name of one gene's ordered comparison matrix (line 118). -/
def geneOutputName (gene : String) : String :=
  gene ++ "_comparison_matrix_ordered_by_tree.csv"

/-- The per-gene loop of `process_gff_folder` (lines 109-121), tracking which
output files get written.  There is no exception handler in the loop: the
first failing `reorder_matrix_by_tree` call aborts it, so genes after the
failure produce no output.  Returns the written file names and the
propagated error, if any. -/
def gene_outputs (df : DataFrame) (genes : List String)
    (tree : Except TreeError (List String)) : List String × Option TreeError :=
  match genes with
  | [] => ([], none)
  | gene :: rest =>
    match reorder_step tree (coPresence df gene) with
    | Except.error e => ([], some e)
    | Except.ok _ =>
      let r := gene_outputs df rest tree
      (geneOutputName gene :: r.1, r.2)

/-- One `process_gff_folder` call (lines 86-121): the presence matrix is
written first, then the per-gene loop runs; an uncaught error from the loop
propagates out of the call. -/
def process_run (files : List (String × List (List Char))) (target_genes : List String)
    (tree : Except TreeError (List String)) (label : String) :
    List String × Option TreeError :=
  let df := process_gff_folder files target_genes
  let r := gene_outputs df target_genes tree
  ((label ++ "_gene_presence_matrix.csv") :: r.1, r.2)

/-- Horizontally transferred gene panel (line 131). -/
def hgt_genes : List String := ["mecA", "cmlA", "tetA", "tetM", "vanA"]

/-- Vertically transferred gene panel (line 136). -/
def vgt_genes : List String := ["gapA", "gyrA", "gyrB", "recA", "rpoB"]

/-- `main` (lines 123-138): the HGT category is processed first; an error
propagating out of its `process_gff_folder` call aborts `main`, so the VGT
category is never reached. -/
def main_run (files : List (String × List (List Char)))
    (tree : Except TreeError (List String)) : List String × Option TreeError :=
  let hgt := process_run files hgt_genes tree "HGT"
  match hgt.2 with
  | some e => (hgt.1, some e)
  | none =>
    let vgt := process_run files vgt_genes tree "VGT"
    (hgt.1 ++ vgt.1, vgt.2)

/-- `copy_gff_files` (lines 10-24): every file found by the recursive walk is
given as a (directory, base name) pair, in walk order; each `.gff` file is
copied to `dst = os.path.join(gff_output_folder, file)`, keyed by base name
only, and `shutil.copy2` overwrites an existing destination.  The resulting
working directory maps each base name to the source file that ends up stored
under it (`none` when no such file). -/
def copy_gff_files (files : List (String × String)) : String → Option (String × String) :=
  files.foldl
    (fun dir fb =>
      if endsWithGff fb.2 then fun b => if b = fb.2 then some fb else dir b
      else dir)
    (fun _ => none)

/-- Whether one annotation line sets `gene`'s presence bit in `parse_gff`:
not a comment, at least 9 tab-separated fields, and the regex scan of the
9th field returns exactly `gene`. -/
def recordMatches (line : List Char) (gene : String) : Prop :=
  startsHash line = false ∧ 8 < (splitTab (pyStrip line)).length ∧
    searchName ((splitTab (pyStrip line)).getD 8 []) = some gene.data

instance (line : List Char) (gene : String) : Decidable (recordMatches line gene) := by
  unfold recordMatches; infer_instance

/-- The spec's rule for GenomeID, for comparison with `genomeName`: the base
name with only its trailing extension stripped, the rest of the name left
intact. -/
def specGenomeId (p : String) : String :=
  if endsWithGff (basename p) then
    String.mk ((basename p).data.take ((basename p).data.length - 4))
  else basename p

/-- The spec's rule for the `Name` attribute value, for comparison with
`searchName`: the text between the first `Name=` occurrence and the next `;`
or the end of the field. -/
def specFirstNameValue : List Char → Option (List Char)
  | 'N' :: 'a' :: 'm' :: 'e' :: '=' :: rest => some (rest.takeWhile (fun x => x ≠ ';'))
  | _ :: rest => specFirstNameValue rest
  | [] => none

/-- The spec's worked example of a presence table: genomes `A`, `B`, `C` with
gene `g` present in `A` and `C` only. -/
def exTable : DataFrame where
  index := ["A", "B", "C"]
  columns := ["g"]
  val := fun i _ => if i = "B" then 0 else 1

/-- A presence table sharing no genome with the tree `["B", "D"]`. -/
def noOverlapTable : DataFrame where
  index := ["A", "C"]
  columns := ["g"]
  val := fun _ _ => 1

/-- A 9-field annotation line whose attribute field starts with an empty-valued
`Name=;` followed by `Name=mecA`. -/
def dupAttrLine : List Char :=
  "c1\tc2\tc3\tc4\tc5\tc6\tc7\tc8\tName=;Name=mecA".data

/-- A well-formed 9-field annotation line carrying `Name=mecA`. -/
def mecALine : List Char :=
  "c1\tc2\tc3\tc4\tc5\tc6\tc7\tc8\tID=x;Name=mecA;product=PBP2a".data

end MakeComparisonMatrices

namespace MakeComparisonMatrices

lemma land_self_eq (n : Nat) : Nat.land n n = n := by
  show n &&& n = n
  apply Nat.eq_of_testBit_eq
  intro i
  simp [Nat.testBit_land]

lemma strmk_eq_iff (v : List Char) (s : String) : String.mk v = s ↔ v = s.data := by
  cases s with
  | mk data => exact ⟨fun h => by injection h, fun h => by rw [h]⟩

/-- C2: the reconciler's `valid_genomes` is the subsequence of the tree's tip
order consisting of the names occurring in the matrix's index; the reordered
matrix has rows = columns = `valid_genomes` selected simultaneously on both
axes (cell values looked up unchanged), and a name present in only one of the
tree order and the matrix index is dropped. -/
theorem reorder_selects_tree_subsequence (df : DataFrame) (tips : List String) :
    (reorder_matrix_by_tree df tips).columns = (reorder_matrix_by_tree df tips).index
    ∧ List.Sublist (reorder_matrix_by_tree df tips).index tips
    ∧ (∀ g, g ∈ (reorder_matrix_by_tree df tips).index ↔ g ∈ tips ∧ g ∈ df.index)
    ∧ (∀ i j, (reorder_matrix_by_tree df tips).val i j = df.val i j) := by
  refine ⟨rfl, List.filter_sublist _, fun g => ?_, fun i j => rfl⟩
  simp [reorder_matrix_by_tree, List.mem_filter]

/-- C3: the comparison matrix of a gene is the outer logical AND of the gene's
presence column with itself, and carries the table's genome index on both
axes in the same order. -/
theorem coPresence_outer_and (df : DataFrame) (gene : String)
    (h : ∀ i ∈ df.index, df.val i gene = 0 ∨ df.val i gene = 1) :
    (coPresence df gene).index = df.index
    ∧ (coPresence df gene).columns = df.index
    ∧ ∀ i ∈ df.index, ∀ j ∈ df.index,
        (coPresence df gene).val i j
          = if df.val i gene = 1 ∧ df.val j gene = 1 then 1 else 0 := by
  refine ⟨rfl, rfl, fun i hi j hj => ?_⟩
  show Nat.land (df.val i gene) (df.val j gene) = _
  rcases h i hi with h1 | h1 <;> rcases h j hj with h2 | h2 <;> rw [h1, h2] <;> decide

/-- Witness for C3 at the spec's worked example (`A,B,C` with presence
`1,0,1`). -/
theorem coPresence_outer_and_witness :
    (∀ i ∈ exTable.index, exTable.val i "g" = 0 ∨ exTable.val i "g" = 1)
    ∧ ((coPresence exTable "g").index = exTable.index
      ∧ (coPresence exTable "g").columns = exTable.index
      ∧ ∀ i ∈ exTable.index, ∀ j ∈ exTable.index,
          (coPresence exTable "g").val i j
            = if exTable.val i "g" = 1 ∧ exTable.val j "g" = 1 then 1 else 0) :=
  ⟨by decide, coPresence_outer_and exTable "g" (by decide)⟩

/-- C4: every comparison matrix is symmetric and its diagonal equals the
gene's presence column of the source table. -/
theorem coPresence_symmetric_diagonal (df : DataFrame) (gene : String) :
    (∀ i j, (coPresence df gene).val i j = (coPresence df gene).val j i)
    ∧ ∀ i, (coPresence df gene).val i i = df.val i gene := by
  refine ⟨fun i j => Nat.land_comm _ _, fun i => land_self_eq _⟩

lemma posOf_append (l1 l2 : List String) (s : String) :
    posOf (l1 ++ l2) s = posOf l1 s ++ (posOf l2 s).map (fun i => i + l1.length) := by
  induction l1 with
  | nil => simp [posOf]
  | cons c l1 ih =>
    show (if c = s then [0] else []) ++ (posOf (l1 ++ l2) s).map (fun i => i + 1)
        = ((if c = s then [0] else []) ++ (posOf l1 s).map (fun i => i + 1))
          ++ (posOf l2 s).map (fun i => i + (c :: l1).length)
    rw [ih]
    simp [List.map_map, Function.comp, Nat.add_assoc, List.append_assoc]

lemma posOf_replicate_self (n : Nat) (s : String) :
    posOf (List.replicate n s) s = List.range n := by
  induction n with
  | zero => rfl
  | succ n ih =>
    show (if s = s then [0] else []) ++ (posOf (List.replicate n s) s).map (fun i => i + 1)
        = List.range (n + 1)
    rw [if_pos rfl, ih, List.range_succ_eq_map]
    simp [Nat.succ_eq_add_one, Nat.add_comm]

lemma posOf_eq_nil (l : List String) (s : String) (h : s ∉ l) : posOf l s = [] := by
  induction l with
  | nil => rfl
  | cons c rest ih =>
    show (if c = s then [0] else []) ++ (posOf rest s).map (fun i => i + 1) = []
    rw [if_neg (fun hc => h (List.mem_cons.mpr (Or.inl hc.symm))),
      ih (fun hm => h (List.mem_cons_of_mem c hm))]
    rfl

lemma posOf_ne_nil (l : List String) (s : String) (h : s ∈ l) : posOf l s ≠ [] := by
  induction l with
  | nil => cases h
  | cons c rest ih =>
    show (if c = s then [0] else []) ++ (posOf rest s).map (fun i => i + 1) ≠ []
    intro hnil
    rcases List.append_eq_nil.mp hnil with ⟨h2, h3⟩
    rcases List.mem_cons.mp h with h1 | h1
    · rw [if_pos h1.symm] at h2
      exact List.cons_ne_nil 0 [] h2
    · exact ih h1 (List.map_eq_nil_iff.mp h3)

lemma getD_posOf (l : List String) (s : String) :
    ∀ i ∈ posOf l s, l.getD i "" = s := by
  induction l with
  | nil => intro i hi; cases hi
  | cons c rest ih =>
    intro i hi
    rw [show posOf (c :: rest) s
        = (if c = s then [0] else []) ++ (posOf rest s).map (fun i => i + 1) from rfl] at hi
    rcases List.mem_append.mp hi with h1 | h1
    · by_cases hc : c = s
      · rw [if_pos hc] at h1
        have h0 : i = 0 := by simpa using h1
        subst h0
        rw [List.getD_cons_zero]
        exact hc
      · rw [if_neg hc] at h1
        cases h1
    · rcases List.mem_map.mp h1 with ⟨j, hj, hji⟩
      subst hji
      rw [List.getD_cons_succ]
      exact ih j hj

lemma map_getD_posOf (l : List String) (s : String) :
    (posOf l s).map (fun i => l.getD i "") = List.replicate (posOf l s).length s := by
  rw [List.eq_replicate_iff]
  refine ⟨List.length_map _ _, ?_⟩
  intro b hb
  rcases List.mem_map.mp hb with ⟨i, hi, hbi⟩
  rw [← hbi]
  exact getD_posOf l s i hi

lemma map_getD_range {α : Type} (l : List α) (d : α) :
    (List.range l.length).map (fun i => l.getD i d) = l := by
  apply List.ext_getElem
  · simp
  · intro n h1 h2
    rw [List.getElem_map, List.getElem_range, List.getD_eq_getElem l d h2]

/-- Selecting, per label of a duplicate-free label list, all positions of
that label in the concatenation of its per-label constant blocks enumerates
every position exactly once, in order. -/
lemma flatMap_posOf_grouped (valid : List String) (m : String → Nat) (h : valid.Nodup) :
    valid.flatMap (fun t => posOf (valid.flatMap fun s => List.replicate (m s) s) t)
      = List.range (valid.flatMap fun s => List.replicate (m s) s).length := by
  induction valid with
  | nil => rfl
  | cons s rest ih =>
    rcases List.nodup_cons.mp h with ⟨hs, hrest⟩
    have hL : (s :: rest).flatMap (fun s => List.replicate (m s) s)
        = List.replicate (m s) s ++ rest.flatMap (fun s => List.replicate (m s) s) :=
      List.flatMap_cons s rest _
    have hsR : s ∉ rest.flatMap (fun s => List.replicate (m s) s) := by
      intro hmem
      rcases List.mem_flatMap.mp hmem with ⟨t, ht, hst⟩
      rcases List.mem_replicate.mp hst with ⟨-, hst⟩
      exact hs (hst ▸ ht)
    rw [List.flatMap_cons]
    have h1 : posOf ((s :: rest).flatMap fun s => List.replicate (m s) s) s
        = List.range (m s) := by
      rw [hL, posOf_append, posOf_replicate_self, posOf_eq_nil _ s hsR]
      simp
    have h2 : rest.flatMap (fun t => posOf ((s :: rest).flatMap fun s => List.replicate (m s) s) t)
        = (rest.flatMap (fun t => posOf (rest.flatMap fun s => List.replicate (m s) s) t)).map
            (fun i => i + m s) := by
      rw [List.map_flatMap]
      apply List.flatMap_congr
      intro t ht
      have hts : t ≠ s := fun hts => hs (hts ▸ ht)
      rw [hL, posOf_append, posOf_eq_nil _ t (fun hmem =>
        hts ((List.mem_replicate.mp hmem).2)), List.nil_append, List.length_replicate]
    rw [h1, h2, ih hrest, hL, List.length_append, List.length_replicate, List.range_add]
    congr 1
    exact List.map_congr_left fun a _ => Nat.add_comm a (m s)

lemma mem_fidx_iff (idx : List String) (tips : List String) (g : String) (hg : g ∈ tips) :
    (g ∈ ((tips.filter (fun x => decide (x ∈ idx))).flatMap (posOf idx)).map
        (fun i => idx.getD i "")) ↔ g ∈ idx := by
  constructor
  · intro hmem
    rcases List.mem_map.mp hmem with ⟨i, hi, hgi⟩
    rcases List.mem_flatMap.mp hi with ⟨s, hs, his⟩
    have hds := getD_posOf idx s i his
    have hgs : g = s := by rw [← hgi, hds]
    have hs' := (List.mem_filter.mp hs).2
    rw [hgs]
    exact decide_eq_true_iff.mp hs'
  · intro hidx
    have hgv : g ∈ tips.filter (fun x => decide (x ∈ idx)) :=
      List.mem_filter.mpr ⟨hg, decide_eq_true_iff.mpr hidx⟩
    obtain ⟨i, hi⟩ := List.exists_mem_of_ne_nil (posOf idx g) (posOf_ne_nil idx g hidx)
    exact List.mem_map.mpr ⟨i, List.mem_flatMap.mpr ⟨g, hgv, hi⟩, getD_posOf idx g i hi⟩

lemma fidx_grouped (idx : List String) (tips : List String) :
    ((tips.filter (fun x => decide (x ∈ idx))).flatMap (posOf idx)).map
        (fun i => idx.getD i "")
      = (tips.filter (fun x => decide (x ∈ idx))).flatMap
          (fun s => List.replicate (posOf idx s).length s) := by
  rw [List.map_flatMap]
  exact List.flatMap_congr (fun s _ => map_getD_posOf idx s)

/-- Selecting the once-selected index again by the same (duplicate-free) tip
list picks out exactly the positions `0, 1, ..., n-1` in order. -/
lemma reselect_positions (idx : List String) (tips : List String) (hnd : tips.Nodup) :
    (tips.filter (fun g => decide (g ∈
        ((tips.filter (fun x => decide (x ∈ idx))).flatMap (posOf idx)).map
          (fun i => idx.getD i "")))).flatMap
      (posOf (((tips.filter (fun x => decide (x ∈ idx))).flatMap (posOf idx)).map
          (fun i => idx.getD i "")))
      = List.range (((tips.filter (fun x => decide (x ∈ idx))).flatMap (posOf idx)).map
          (fun i => idx.getD i "")).length := by
  have hD : tips.filter (fun g => decide (g ∈
      ((tips.filter (fun x => decide (x ∈ idx))).flatMap (posOf idx)).map
        (fun i => idx.getD i "")))
      = tips.filter (fun x => decide (x ∈ idx)) := by
    apply List.filter_congr
    intro g hg
    exact decide_eq_decide.mpr (mem_fidx_iff idx tips g hg)
  rw [hD, fidx_grouped]
  exact flatMap_posOf_grouped _ _ (hnd.filter _)

lemma square_reselect (rows : List (List Nat)) (n : Nat) (hlen : rows.length = n)
    (hrow : ∀ r ∈ rows, r.length = n) :
    (List.range n).map (fun i => (List.range n).map (fun j => (rows.getD i []).getD j 0))
      = rows := by
  apply List.ext_getElem
  · simp [hlen]
  · intro i h1 h2
    rw [List.getElem_map, List.getElem_range, List.getD_eq_getElem rows [] h2]
    have hr : (rows[i]).length = n := hrow _ (List.getElem_mem h2)
    calc (List.range n).map (fun j => (rows[i]).getD j 0)
        = (List.range (rows[i]).length).map (fun j => (rows[i]).getD j 0) := by rw [hr]
      _ = rows[i] := map_getD_range _ 0

lemma PosFrame.ext_fields (a b : PosFrame) (h1 : a.index = b.index)
    (h2 : a.columns = b.columns) (h3 : a.rows = b.rows) : a = b := by
  cases a; cases b
  simp only at h1 h2 h3
  rw [h1, h2, h3]

/-- C8 (counterexample): the program is not idempotent for every square
matrix and TreeOrder.  With tip order `A, A` (realizable Newick `(A,A);`) and
a one-genome matrix indexed `A`, the first reorder returns the 2x2 frame
indexed `A, A`; reapplying the same TreeOrder makes `.loc` expand each of the
two selector labels against the now duplicated index, yielding a 4x4 frame -
not a matrix identical to the first result. -/
theorem reorder_not_idempotent_duplicate_tips :
    reorder_matrix_by_tree_loc ⟨["A"], ["A"], [[1]]⟩ ["A", "A"]
      = ⟨["A", "A"], ["A", "A"], [[1, 1], [1, 1]]⟩
    ∧ reorder_matrix_by_tree_loc
        (reorder_matrix_by_tree_loc ⟨["A"], ["A"], [[1]]⟩ ["A", "A"]) ["A", "A"]
      = ⟨["A", "A", "A", "A"], ["A", "A", "A", "A"],
          [[1, 1, 1, 1], [1, 1, 1, 1], [1, 1, 1, 1], [1, 1, 1, 1]]⟩
    ∧ reorder_matrix_by_tree_loc
        (reorder_matrix_by_tree_loc ⟨["A"], ["A"], [[1]]⟩ ["A", "A"]) ["A", "A"]
      ≠ reorder_matrix_by_tree_loc ⟨["A"], ["A"], [[1]]⟩ ["A", "A"] :=
  ⟨by decide, by decide, by decide⟩

/-- C8 (amended): reordering is idempotent whenever the TreeOrder contains no
duplicate leaf name: for every square matrix (same labels on both axes,
duplicates in the matrix index allowed) reapplying the reconciliation by the
same duplicate-free TreeOrder returns a matrix identical to the first result
- same index, same columns, same cells. -/
theorem reorder_loc_idempotent (df : PosFrame) (tips : List String)
    (hsq : df.columns = df.index) (hnd : tips.Nodup) :
    reorder_matrix_by_tree_loc (reorder_matrix_by_tree_loc df tips) tips
      = reorder_matrix_by_tree_loc df tips := by
  obtain ⟨idx, cols, rows⟩ := df
  replace hsq : idx = cols := hsq.symm
  subst hsq
  have hfirst : reorder_matrix_by_tree_loc ⟨idx, idx, rows⟩ tips
      = ⟨((tips.filter (fun x => decide (x ∈ idx))).flatMap (posOf idx)).map
            (fun i => idx.getD i ""),
          ((tips.filter (fun x => decide (x ∈ idx))).flatMap (posOf idx)).map
            (fun i => idx.getD i ""),
          ((tips.filter (fun x => decide (x ∈ idx))).flatMap (posOf idx)).map
            (fun i => ((tips.filter (fun x => decide (x ∈ idx))).flatMap (posOf idx)).map
              (fun j => (rows.getD i []).getD j 0))⟩ := rfl
  rw [hfirst]
  set ps := (tips.filter (fun x => decide (x ∈ idx))).flatMap (posOf idx) with hps
  set fidx := ps.map (fun i => idx.getD i "") with hfidx
  set frows := ps.map (fun i => ps.map (fun j => (rows.getD i []).getD j 0)) with hfrows
  have hsel : (tips.filter (fun g => decide (g ∈ fidx))).flatMap (posOf fidx)
      = List.range fidx.length := reselect_positions idx tips hnd
  have hsecond : reorder_matrix_by_tree_loc ⟨fidx, fidx, frows⟩ tips
      = ⟨((tips.filter (fun g => decide (g ∈ fidx))).flatMap (posOf fidx)).map
            (fun i => fidx.getD i ""),
          ((tips.filter (fun g => decide (g ∈ fidx))).flatMap (posOf fidx)).map
            (fun j => fidx.getD j ""),
          ((tips.filter (fun g => decide (g ∈ fidx))).flatMap (posOf fidx)).map
            (fun i => ((tips.filter (fun g => decide (g ∈ fidx))).flatMap (posOf fidx)).map
              (fun j => (frows.getD i []).getD j 0))⟩ := rfl
  rw [hsecond]
  apply PosFrame.ext_fields
  · show ((tips.filter (fun g => decide (g ∈ fidx))).flatMap (posOf fidx)).map
        (fun i => fidx.getD i "") = fidx
    rw [hsel]
    exact map_getD_range fidx ""
  · show ((tips.filter (fun g => decide (g ∈ fidx))).flatMap (posOf fidx)).map
        (fun j => fidx.getD j "") = fidx
    rw [hsel]
    exact map_getD_range fidx ""
  · show ((tips.filter (fun g => decide (g ∈ fidx))).flatMap (posOf fidx)).map
        (fun i => ((tips.filter (fun g => decide (g ∈ fidx))).flatMap (posOf fidx)).map
          (fun j => (frows.getD i []).getD j 0)) = frows
    rw [hsel]
    apply square_reselect
    · rw [hfrows, hfidx]
      simp
    · intro r hr
      rw [hfrows] at hr
      rcases List.mem_map.mp hr with ⟨i, hi, hri⟩
      rw [← hri, hfidx]
      simp

/-- Witness for C8's amended theorem: genomes `A,B`, tree order `B,A` (no
duplicates), identity-like cells. -/
theorem reorder_loc_idempotent_witness :
    ((⟨["A", "B"], ["A", "B"], [[1, 0], [0, 1]]⟩ : PosFrame).columns
        = (⟨["A", "B"], ["A", "B"], [[1, 0], [0, 1]]⟩ : PosFrame).index)
    ∧ (["B", "A"] : List String).Nodup
    ∧ reorder_matrix_by_tree_loc
        (reorder_matrix_by_tree_loc ⟨["A", "B"], ["A", "B"], [[1, 0], [0, 1]]⟩ ["B", "A"])
        ["B", "A"]
      = reorder_matrix_by_tree_loc ⟨["A", "B"], ["A", "B"], [[1, 0], [0, 1]]⟩ ["B", "A"] :=
  ⟨by decide, by decide,
    reorder_loc_idempotent ⟨["A", "B"], ["A", "B"], [[1, 0], [0, 1]]⟩ ["B", "A"]
      (by decide) (by decide)⟩

/-- C9: when tree and matrix share no genome name, the reconciler still
returns (it is a total function, no crash): the result is the explicitly
empty matrix, distinguishable from any populated matrix by its empty
index. -/
theorem reorder_empty_intersection (df : DataFrame) (tips : List String)
    (h : ∀ g ∈ tips, g ∉ df.index) :
    (reorder_matrix_by_tree df tips).index = []
    ∧ (reorder_matrix_by_tree df tips).columns = []
    ∧ ∀ m : DataFrame, m.index ≠ [] → reorder_matrix_by_tree df tips ≠ m := by
  have hidx : (reorder_matrix_by_tree df tips).index = [] := by
    simp only [reorder_matrix_by_tree, List.filter_eq_nil_iff]
    intro a ha
    simpa using h a ha
  refine ⟨hidx, hidx, fun m hm heq => hm ?_⟩
  rw [← heq]
  exact hidx

/-- Witness for C9: genomes `A,C` against tree tips `B,D`. -/
theorem reorder_empty_intersection_witness :
    (∀ g ∈ ["B", "D"], g ∉ noOverlapTable.index)
    ∧ ((reorder_matrix_by_tree noOverlapTable ["B", "D"]).index = []
      ∧ (reorder_matrix_by_tree noOverlapTable ["B", "D"]).columns = []
      ∧ ∀ m : DataFrame, m.index ≠ []
          → reorder_matrix_by_tree noOverlapTable ["B", "D"] ≠ m) :=
  ⟨by decide, reorder_empty_intersection noOverlapTable ["B", "D"] (by decide)⟩

lemma hasGff_cons (c : Char) (m : List Char) (h : hasGff (c :: m) = false) :
    hasGff m = false := by
  rw [hasGff.eq_def] at h
  split at h
  · exact absurd h (by simp)
  · rename_i c' rest hnot heq
    injection heq with h1 h2
    subst h2
    exact h
  · rename_i heq
    exact absurd heq (by simp)

/-- When `.gff` does not occur in `stem`, removing all `.gff` occurrences from
`stem ++ ".gff"` leaves exactly `stem` (no occurrence can straddle the
boundary, since no proper suffix of `.gff` is a prefix of `.gff`). -/
lemma removeGff_stem (m : List Char) (h : hasGff m = false) :
    removeGff (m ++ ['.', 'g', 'f', 'f']) = m := by
  induction m with
  | nil => rfl
  | cons c m ih =>
    have hm := hasGff_cons c m h
    rw [List.cons_append, removeGff.eq_def]
    split
    · rename_i rest heq
      exfalso
      injection heq with h1 h2
      subst h1
      rcases m with _ | ⟨a, m1⟩
      · injection h2 with ha _
        exact absurd ha (by decide)
      · injection h2 with ha h3
        subst ha
        rcases m1 with _ | ⟨b, m2⟩
        · injection h3 with hb _
          exact absurd hb (by decide)
        · injection h3 with hb h4
          subst hb
          rcases m2 with _ | ⟨d, m3⟩
          · injection h4 with hd _
            exact absurd hd (by decide)
          · injection h4 with hd _
            subst hd
            have htrue : hasGff ('.' :: 'g' :: 'f' :: 'f' :: m3) = true := rfl
            rw [htrue] at h
            exact absurd h (by decide)
    · rename_i c' rest hnot heq
      injection heq with h1 h2
      subst h1
      rw [← h2, ih hm]
    · rename_i heq
      exact absurd heq (by simp)

/-- C7 (counterexample): `genome_name` is computed with
`replace(".gff", "")`, which removes every occurrence of `.gff`, not only the
trailing extension: on `strainA.gff.gff` the code yields `strainA`, while the
claim's rule (strip only the trailing extension) yields `strainA.gff`. -/
theorem genome_id_strips_all_occurrences :
    genomeName "strainA.gff.gff" = "strainA"
    ∧ specGenomeId "strainA.gff.gff" = "strainA.gff"
    ∧ genomeName "strainA.gff.gff" ≠ specGenomeId "strainA.gff.gff" :=
  ⟨by decide, by decide, by decide⟩

/-- C7 (amended): the GenomeID is the base name with every occurrence of
`.gff` removed; when `.gff` occurs in the base name only as the trailing
extension, this agrees with the claimed extension-stripping rule. -/
theorem genome_id_extension_strip (p : String) (stem : List Char)
    (hb : (basename p).data = stem ++ ['.', 'g', 'f', 'f'])
    (hs : hasGff stem = false) :
    genomeName p = String.mk stem ∧ genomeName p = specGenomeId p := by
  have h1 : genomeName p = String.mk stem := by
    unfold genomeName
    rw [hb, removeGff_stem stem hs]
  refine ⟨h1, ?_⟩
  have he : endsWithGff (basename p) = true := by
    unfold endsWithGff
    rw [hb]
    simp
  rw [h1]
  unfold specGenomeId
  rw [if_pos he, hb]
  have hlen : (stem ++ ['.', 'g', 'f', 'f']).length - 4 = stem.length := by simp
  rw [hlen, List.take_left]

/-- Witness for C7's amended theorem at the spec's example `strainA.gff`. -/
theorem genome_id_extension_strip_witness :
    ((basename "strainA.gff").data = "strainA".data ++ ['.', 'g', 'f', 'f'])
    ∧ (hasGff "strainA".data = false)
    ∧ (genomeName "strainA.gff" = String.mk "strainA".data
      ∧ genomeName "strainA.gff" = specGenomeId "strainA.gff") :=
  ⟨by decide, by decide,
    genome_id_extension_strip "strainA.gff" "strainA".data (by decide) (by decide)⟩

/-- C1 (counterexample): two distinct working-directory files, `a.gff` and
`a.gff.gff`, yield the same GenomeID `a`, and `process_gff_folder` builds the
presence table anyway: no error of any kind is modelled because no code path
raises one — `set_index` keeps both rows, so the table's index lists `a`
twice. -/
theorem duplicate_genome_id_is_silent :
    genomeName "a.gff" = genomeName "a.gff.gff"
    ∧ genomeName "a.gff" = "a"
    ∧ (process_gff_folder [("a.gff", []), ("a.gff.gff", [])] hgt_genes).index
        = ["a", "a"] :=
  ⟨by decide, by decide, by decide⟩

lemma two_le_count_of_get_eq (l : List String) (i j : Nat) (hi : i < l.length)
    (hj : j < l.length) (hij : i < j) (h : l.get ⟨i, hi⟩ = l.get ⟨j, hj⟩) :
    2 ≤ l.count (l.get ⟨i, hi⟩) := by
  have hp : List.Pairwise (fun a b : Fin l.length => a < b) [⟨i, hi⟩, ⟨j, hj⟩] := by
    simp [hij]
  have hsub : List.Sublist [l.get ⟨i, hi⟩, l.get ⟨j, hj⟩] l := by
    simpa using List.map_getElem_sublist hp
  rw [← h] at hsub
  have hc := hsub.count_le (l.get ⟨i, hi⟩)
  simpa [List.count_cons] using hc

/-- C1 (amended): a GenomeID collision between two input files is not
surfaced: building the presence table never fails, each file still
contributes its own row (the index has exactly one entry per file), and the
colliding GenomeID occurs at least twice in the index — duplicated rather
than overwritten. -/
theorem presence_table_keeps_duplicate_rows
    (files : List (String × List (List Char))) (target_genes : List String)
    (i j : Nat) (hi : i < files.length) (hj : j < files.length) (hij : i < j)
    (hname : genomeName (files.get ⟨i, hi⟩).1 = genomeName (files.get ⟨j, hj⟩).1) :
    (process_gff_folder files target_genes).index.length = files.length
    ∧ 2 ≤ (process_gff_folder files target_genes).index.count
        (genomeName (files.get ⟨i, hi⟩).1) := by
  have hidx : (process_gff_folder files target_genes).index
      = files.map (fun fp => genomeName fp.1) := by
    simp [process_gff_folder, buildPresenceTable, parse_gff, List.map_map]
  rw [hidx]
  have hil : i < (files.map (fun fp => genomeName fp.1)).length := by simpa using hi
  have hjl : j < (files.map (fun fp => genomeName fp.1)).length := by simpa using hj
  have hgi : (files.map (fun fp => genomeName fp.1)).get ⟨i, hil⟩
      = genomeName (files.get ⟨i, hi⟩).1 := by
    simp [List.get_eq_getElem, List.getElem_map]
  have hgj : (files.map (fun fp => genomeName fp.1)).get ⟨j, hjl⟩
      = genomeName (files.get ⟨j, hj⟩).1 := by
    simp [List.get_eq_getElem, List.getElem_map]
  refine ⟨by simp, ?_⟩
  have := two_le_count_of_get_eq (files.map fun fp => genomeName fp.1) i j hil hjl
    hij (by rw [hgi, hgj]; exact hname)
  rwa [hgi] at this

/-- Witness for C1's amended theorem: files `a.gff` and `a.gff.gff`. -/
theorem presence_table_keeps_duplicate_rows_witness :
    (0 : Nat) < 2 ∧ (1 : Nat) < 2 ∧ (0 : Nat) < 1
    ∧ genomeName ([("a.gff", []), ("a.gff.gff", [])].get
        (⟨0, by decide⟩ : Fin 2) : String × List (List Char)).1
      = genomeName ([("a.gff", []), ("a.gff.gff", [])].get
        (⟨1, by decide⟩ : Fin 2) : String × List (List Char)).1
    ∧ ((process_gff_folder [("a.gff", []), ("a.gff.gff", [])] vgt_genes).index.length
        = ([("a.gff", []), ("a.gff.gff", [])] : List (String × List (List Char))).length
      ∧ 2 ≤ (process_gff_folder [("a.gff", []), ("a.gff.gff", [])] vgt_genes).index.count
          (genomeName ([("a.gff", []), ("a.gff.gff", [])].get
            (⟨0, by decide⟩ : Fin 2) : String × List (List Char)).1)) :=
  ⟨by decide, by decide, by decide, by decide,
    presence_table_keeps_duplicate_rows [("a.gff", []), ("a.gff.gff", [])] vgt_genes
      0 1 (by decide) (by decide) (by decide) (by decide)⟩

/-- C5 (counterexample): with an unparsable tree file, the whole batch stops
at the first gene of the first category: the only file written is the HGT
presence matrix — no other gene's ordered matrix is written (e.g. `cmlA`'s),
and the VGT category (including its presence matrix) is never processed. -/
theorem tree_error_aborts_whole_batch :
    main_run [("a.gff", [])] (Except.error TreeError.parseError)
      = (["HGT_gene_presence_matrix.csv"], some TreeError.parseError)
    ∧ geneOutputName "cmlA"
        ∉ (main_run [("a.gff", [])] (Except.error TreeError.parseError)).1
    ∧ "VGT_gene_presence_matrix.csv"
        ∉ (main_run [("a.gff", [])] (Except.error TreeError.parseError)).1 :=
  ⟨rfl, by decide, by decide⟩

/-- C5 (amended): a tree parse failure is fatal to the entire batch, not to
one gene's ordering step: the per-gene loop has no exception handler, so
`main` aborts with only the first category's presence matrix written; no
ordered matrix and no second-category output exists. -/
theorem tree_error_propagates_to_main (files : List (String × List (List Char)))
    (e : TreeError) :
    main_run files (Except.error e) = (["HGT_gene_presence_matrix.csv"], some e) := rfl

lemma copy_skip (files : List (String × String)) (dir : String → Option (String × String))
    (b : String) (h : ∀ f ∈ files, endsWithGff f.2 = true → f.2 ≠ b) :
    files.foldl
      (fun dir fb =>
        if endsWithGff fb.2 then fun x => if x = fb.2 then some fb else dir x
        else dir)
      dir b = dir b := by
  induction files generalizing dir with
  | nil => rfl
  | cons f fs ih =>
    rw [List.foldl_cons, ih _ (fun g hg => h g (List.mem_cons_of_mem f hg))]
    by_cases hf : endsWithGff f.2 = true
    · have hne : f.2 ≠ b := h f (List.mem_cons_self f fs) hf
      simp only [hf, if_true]
      rw [if_neg (fun hbf => hne hbf.symm)]
    · simp [hf]

/-- C10: the flattening step keys the working directory by base name only:
when a later-walked `.gff` file shares its base name with an earlier one, the
later copy overwrites the earlier with no error or diagnostic, and the
working directory ends up holding exactly one file under that base name —
the later one. -/
theorem flatten_keyed_by_basename
    (pre mid post : List (String × String)) (f1 f2 : String × String)
    (_h1 : endsWithGff f1.2 = true) (h2 : endsWithGff f2.2 = true)
    (hb : f1.2 = f2.2)
    (hpost : ∀ f ∈ post, endsWithGff f.2 = true → f.2 ≠ f1.2) :
    copy_gff_files (pre ++ f1 :: (mid ++ f2 :: post)) f1.2 = some f2 := by
  unfold copy_gff_files
  rw [List.foldl_append, List.foldl_cons, List.foldl_append, List.foldl_cons]
  rw [copy_skip post _ f1.2 hpost]
  simp only [h2, if_true]
  rw [hb, if_pos rfl]

/-- Witness for C10: `sub1/a.gff` then `sub2/a.gff`; the directory maps
`a.gff` to the later source `sub2/a.gff`. -/
theorem flatten_keyed_by_basename_witness :
    endsWithGff ("sub1", "a.gff").2 = true
    ∧ endsWithGff ("sub2", "a.gff").2 = true
    ∧ ("sub1", "a.gff").2 = ("sub2", "a.gff").2
    ∧ (∀ f ∈ ([] : List (String × String)), endsWithGff f.2 = true → f.2 ≠ ("sub1", "a.gff").2)
    ∧ copy_gff_files ([] ++ ("sub1", "a.gff") :: ([] ++ ("sub2", "a.gff") :: []))
        ("sub1", "a.gff").2 = some ("sub2", "a.gff") :=
  ⟨by decide, by decide, by decide, by decide,
    flatten_keyed_by_basename [] [] [] ("sub1", "a.gff") ("sub2", "a.gff")
      (by decide) (by decide) (by decide) (by decide)⟩

lemma updateLine_eq_one (target_genes : List String) (pres : String → Nat)
    (line : List Char) (gene : String) (hg : gene ∈ target_genes) :
    updateLine target_genes pres line gene = 1
      ↔ (pres gene = 1 ∨ recordMatches line gene) := by
  unfold updateLine
  by_cases h1 : startsHash line = true
  · rw [if_pos h1]
    simp [recordMatches, h1]
  · rw [if_neg h1]
    have h1' : startsHash line = false := Bool.of_not_eq_true h1
    by_cases h2 : 8 < (splitTab (pyStrip line)).length
    · rw [if_pos h2]
      cases hsn : searchName ((splitTab (pyStrip line)).getD 8 []) with
      | none =>
        have hnr : ¬ recordMatches line gene := by
          intro hr
          obtain ⟨-, -, heq⟩ := hr
          rw [hsn] at heq
          exact Option.noConfusion heq
        show pres gene = 1 ↔ pres gene = 1 ∨ recordMatches line gene
        simp [hnr]
      | some v =>
        show (if String.mk v ∈ target_genes then fun g => if g = String.mk v then 1 else pres g
            else pres) gene = 1 ↔ pres gene = 1 ∨ recordMatches line gene
        by_cases h3 : String.mk v ∈ target_genes
        · rw [if_pos h3]
          show (if gene = String.mk v then 1 else pres gene) = 1
            ↔ pres gene = 1 ∨ recordMatches line gene
          by_cases h4 : gene = String.mk v
          · rw [if_pos h4]
            have hr : recordMatches line gene := ⟨h1', h2, by rw [hsn, h4]⟩
            simp [hr]
          · rw [if_neg h4]
            have hnr : ¬ recordMatches line gene := by
              intro hr
              obtain ⟨-, -, heq⟩ := hr
              rw [hsn] at heq
              injection heq with hv
              exact h4 ((strmk_eq_iff v gene).mpr hv).symm
            simp [hnr]
        · rw [if_neg h3]
          have hnr : ¬ recordMatches line gene := by
            intro hr
            obtain ⟨-, -, heq⟩ := hr
            rw [hsn] at heq
            injection heq with hv
            exact h3 (((strmk_eq_iff v gene).mpr hv) ▸ hg)
          show pres gene = 1 ↔ pres gene = 1 ∨ recordMatches line gene
          simp [hnr]
    · rw [if_neg h2]
      simp [recordMatches, h2]

lemma foldl_updateLine_eq_one (target_genes : List String) (gene : String)
    (hg : gene ∈ target_genes) (lines : List (List Char)) (pres : String → Nat) :
    (lines.foldl (updateLine target_genes) pres) gene = 1
      ↔ pres gene = 1 ∨ ∃ line ∈ lines, recordMatches line gene := by
  induction lines generalizing pres with
  | nil => simp
  | cons l ls ih =>
    rw [List.foldl_cons, ih (updateLine target_genes pres l),
      updateLine_eq_one target_genes pres l gene hg, List.exists_mem_cons_iff]
    tauto

/-- C6 (amended): a gene's presence bit ends up 1 exactly when some
non-comment record with at least 9 tab-separated fields has, as the value
captured by the leftmost match of the `Name=` pattern in its 9th field (the
first `Name=` occurrence whose value is nonempty, taken up to the next `;` or
the end of the field), precisely the gene's name — exact string equality, so
a partial or substring value never sets the bit. -/
theorem parse_gff_presence_iff (file_path : String) (lines : List (List Char))
    (target_genes : List String) (gene : String) (hg : gene ∈ target_genes) :
    (parse_gff file_path lines target_genes).2 gene = 1
      ↔ ∃ line ∈ lines, recordMatches line gene := by
  unfold parse_gff
  rw [foldl_updateLine_eq_one target_genes gene hg lines (fun _ => 0)]
  simp

/-- Witness for C6's amended theorem on a record carrying `Name=mecA`. -/
theorem parse_gff_presence_iff_witness :
    ("mecA" ∈ ["mecA", "tetA"])
    ∧ ((parse_gff "strainA.gff" [mecALine] ["mecA", "tetA"]).2 "mecA" = 1
      ↔ ∃ line ∈ [mecALine], recordMatches line "mecA") :=
  ⟨by decide, parse_gff_presence_iff "strainA.gff" [mecALine] ["mecA", "tetA"]
    "mecA" (by decide)⟩

/-- C6 (counterexample): on the attribute field `Name=;Name=mecA`, the text
between the first `Name=` occurrence and the next `;` is empty — not equal to
`mecA` — yet the code sets `mecA`'s bit: `re.search` skips the empty-valued
first occurrence and captures the second.  The claimed rule (value of the
first `Name=` occurrence) therefore mispredicts the code. -/
theorem name_regex_skips_empty_first_value :
    (parse_gff "strainA.gff" [dupAttrLine] ["mecA", "tetA"]).2 "mecA" = 1
    ∧ specFirstNameValue ((splitTab (pyStrip dupAttrLine)).getD 8 []) = some []
    ∧ specFirstNameValue ((splitTab (pyStrip dupAttrLine)).getD 8 [])
        ≠ some "mecA".data :=
  ⟨by decide, by decide, by decide⟩

end MakeComparisonMatrices
